import Mathlib

/-!
Verification development for the Hesabe helper API (src/index.js).

JS strings are modelled as lists of UTF-16 code units (`Str := List Nat`);
byte arrays as lists of naturals (`Bytes := List Nat`, values < 256 where
relevant).  The AES block cipher itself comes from the external `aes-js`
library, so it is kept abstract as a pair of block maps (`AesAlg`); the
hypotheses actually used of it (a length-preserving permutation of 16-byte
blocks) are collected in `GoodAes`.  Everything layered on top of the block
cipher - UTF-8 and hex codecs, PKCS#7 padding, CBC chaining, the custom
`pkcs5Strip`, and the Express route handler - is translated directly from
the source.
-/

namespace Hesabe

instance instDecEqExcept {ε α : Type} [DecidableEq ε] [DecidableEq α] :
    DecidableEq (Except ε α) := fun x y =>
  match x, y with
  | .ok a, .ok b => decidable_of_iff (a = b) (by simp)
  | .error a, .error b => decidable_of_iff (a = b) (by simp)
  | .ok _, .error _ => isFalse (fun hx => Except.noConfusion hx)
  | .error _, .ok _ => isFalse (fun hx => Except.noConfusion hx)

abbrev Str := List Nat
abbrev Bytes := List Nat

/-- Code units of a Lean string literal (ASCII in all uses here, so code
units coincide with code points). -/
def uStr (s : String) : Str := s.data.map Char.toNat

/-- A code unit that is a Unicode scalar value of the basic multilingual
plane: the range on which the aes-js UTF-8 codec is total and injective
(its decoder only handles 1- to 3-byte sequences). -/
def ValidUnit (u : Nat) : Prop := u < 65536 ∧ ¬(55296 ≤ u ∧ u ≤ 57343)

instance (u : Nat) : Decidable (ValidUnit u) := by
  unfold ValidUnit; infer_instance

/-- UTF-8 encoding of one BMP code unit (what `encodeURI` inside
`aesjs.utils.utf8.toBytes` produces for such units). -/
def utf8EncUnit (u : Nat) : Bytes :=
  if u < 128 then [u]
  else if u < 2048 then [192 + u / 64, 128 + u % 64]
  else [224 + u / 4096, 128 + u / 64 % 64, 128 + u % 64]

/-- `aesjs.utils.utf8.toBytes`. -/
def utf8ToBytes (s : Str) : Bytes := (s.map utf8EncUnit).flatten

/-- Two-byte branch of `aesjs.utils.utf8.fromBytes`:
`((c & 0x1f) << 6) | (b & 0x3f)`. -/
def decode2 (c b : Nat) : Nat := ((c &&& 31) <<< 6) ||| (b &&& 63)

/-- Three-byte branch of `aesjs.utils.utf8.fromBytes`:
`((c & 0x0f) << 12) | ((b & 0x3f) << 6) | (b2 & 0x3f)`. -/
def decode3 (c b b2 : Nat) : Nat :=
  ((c &&& 15) <<< 12) ||| ((b &&& 63) <<< 6) ||| (b2 &&& 63)

/-- `aesjs.utils.utf8.fromBytes`.  A byte below 128 yields one unit, a byte
in (191, 224) consumes two bytes, anything else consumes three; reads past
the end of the array behave as 0 (JS `undefined & 0x3f`).  The cases are
split by how many bytes remain so that each equation is structural. -/
def utf8FromBytes : Bytes → Str
  | [] => []
  | [c] =>
    if c < 128 then [c]
    else if 191 < c && c < 224 then [decode2 c 0]
    else [decode3 c 0 0]
  | [c, b] =>
    if c < 128 then c :: utf8FromBytes [b]
    else if 191 < c && c < 224 then [decode2 c b]
    else [decode3 c b 0]
  | c :: b :: b2 :: rest =>
    if c < 128 then c :: utf8FromBytes (b :: b2 :: rest)
    else if 191 < c && c < 224 then decode2 c b :: utf8FromBytes (b2 :: rest)
    else decode3 c b b2 :: utf8FromBytes rest

/-- The lowercase hex alphabet used by `aesjs.utils.hex`. -/
def hexDigitCodes : Str := uStr "0123456789abcdef"

/-- One byte to two hex characters: `Hex[(v & 0xf0) >> 4] + Hex[v & 0x0f]`. -/
def hexFromByte (v : Nat) : Str :=
  [hexDigitCodes.getD ((v &&& 240) >>> 4) 0, hexDigitCodes.getD (v &&& 15) 0]

/-- `aesjs.utils.hex.fromBytes`. -/
def hexFromBytes (bs : Bytes) : Str := (bs.map hexFromByte).flatten

/-- Value of a single hex digit character, or `none`. -/
def hexDigitVal (c : Nat) : Option Nat :=
  if 48 ≤ c ∧ c ≤ 57 then some (c - 48)
  else if 97 ≤ c ∧ c ≤ 102 then some (c - 87)
  else if 65 ≤ c ∧ c ≤ 70 then some (c - 55)
  else none

/-- `parseInt(text.substr(i, 2), 16)` as used by `aesjs.utils.hex.toBytes`,
followed by the `Uint8Array` coercion that turns `NaN` into 0: a leading
non-digit gives 0, a digit followed by a non-digit (or nothing) gives just
the first digit's value. -/
def hexPairVal (c1 : Nat) (c2 : Option Nat) : Nat :=
  match hexDigitVal c1 with
  | none => 0
  | some d1 =>
    match c2 with
    | none => d1
    | some c =>
      match hexDigitVal c with
      | none => d1
      | some d2 => 16 * d1 + d2

/-- `aesjs.utils.hex.toBytes`: consume the string two characters at a time. -/
def hexToBytes : Str → Bytes
  | [] => []
  | [c] => [hexPairVal c none]
  | c1 :: c2 :: rest => hexPairVal c1 (some c2) :: hexToBytes rest

/-- `aesjs.padding.pkcs7.pad` with the 16-byte AES block size. -/
def pkcs7pad (bs : Bytes) : Bytes :=
  let padder := 16 - bs.length % 16
  bs ++ List.replicate padder padder

/-- Per-byte xor of two 16-byte blocks. -/
def xorBlock (a b : Bytes) : Bytes := List.zipWith (fun x y => x ^^^ y) a b

/-- The external AES block cipher, abstract: `encB key block` and
`decB key block` on 16-byte blocks. -/
structure AesAlg where
  encB : Bytes → Bytes → Bytes
  decB : Bytes → Bytes → Bytes

/-- What the development assumes of the block cipher: on 16-byte blocks of
bytes it returns 16 bytes and decryption inverts encryption. -/
def GoodAes (A : AesAlg) (key : Bytes) : Prop :=
  ∀ b : Bytes, b.length = 16 → (∀ x ∈ b, x < 256) →
    (A.encB key b).length = 16 ∧ (∀ x ∈ A.encB key b, x < 256) ∧
      A.decB key (A.encB key b) = b

/-- CBC encryption over a list of 16-byte blocks, threading the previous
ciphertext block (initially the IV), as `aesjs.ModeOfOperation.cbc` does. -/
def cbcEncBlocks (A : AesAlg) (key : Bytes) : Bytes → List Bytes → List Bytes
  | _, [] => []
  | prev, b :: rest =>
    let c := A.encB key (xorBlock b prev)
    c :: cbcEncBlocks A key c rest

/-- CBC decryption over a list of 16-byte ciphertext blocks. -/
def cbcDecBlocks (A : AesAlg) (key : Bytes) : Bytes → List Bytes → List Bytes
  | _, [] => []
  | prev, c :: rest => xorBlock (A.decB key c) prev :: cbcDecBlocks A key c rest

/-- Split a byte list into consecutive 16-byte chunks (fuelled so that it
computes by structural recursion; the fuel is the list length). -/
def chunkAux : Nat → Bytes → List Bytes
  | 0, _ => []
  | fuel + 1, l => if l = [] then [] else l.take 16 :: chunkAux fuel (l.drop 16)

def chunk16 (l : Bytes) : List Bytes := chunkAux l.length l

/-- The `HesabeCrypt` instance state: exactly the two fields the
constructor stores (src/index.js lines 10-14). -/
structure HesabeCrypt where
  key : Bytes
  iv : Bytes
  deriving DecidableEq

/-- `new HesabeCrypt(secretKey, ivKey)`. -/
def HesabeCrypt.ofStrings (secretKey ivKey : Str) : HesabeCrypt :=
  ⟨utf8ToBytes secretKey, utf8ToBytes ivKey⟩

/-- `HesabeCrypt.encryptAes` (src/index.js lines 16-24): UTF-8 encode,
PKCS#7 pad, CBC encrypt with a fresh mode object seeded from the stored
key/IV, hex encode. -/
def encryptAes (A : AesAlg) (c : HesabeCrypt) (plainText : Str) : Str :=
  let txtBytes := pkcs7pad (utf8ToBytes plainText)
  let encBytes := (cbcEncBlocks A c.key c.iv (chunk16 txtBytes)).flatten
  hexFromBytes encBytes

/-- The failures of the decrypt path: the two throws of `pkcs5Strip` and
the ciphertext-size throw of `aes-js` CBC decryption. -/
inductive PadErr where
  | blockLen
  | padRange
  | cipherLen
  deriving DecidableEq

/-- `HesabeCrypt.pkcs5Strip` (src/index.js lines 35-46). -/
def pkcs5Strip (data : Str) : Except PadErr Str :=
  let dataLen := data.length
  if dataLen < 32 then Except.error PadErr.blockLen
  else
    let padderCodeInt := data.getLastD 0
    if padderCodeInt > 32 then Except.error PadErr.padRange
    else Except.ok (data.take (dataLen - padderCodeInt))

/-- `HesabeCrypt.decryptAes` (src/index.js lines 26-33): hex decode, CBC
decrypt (aes-js throws unless the byte count is a multiple of 16), UTF-8
decode, then `pkcs5Strip`. -/
def decryptAes (A : AesAlg) (c : HesabeCrypt) (encHex : Str) : Except PadErr Str :=
  let encBytes := hexToBytes encHex
  if encBytes.length % 16 = 0 then
    let decBytes := (cbcDecBlocks A c.key c.iv (chunk16 encBytes)).flatten
    pkcs5Strip (utf8FromBytes decBytes)
  else Except.error PadErr.cipherLen

/-- The identity block "cipher": a concrete `GoodAes` instance used to
evaluate the envelope on explicit inputs. -/
def idA : AesAlg := ⟨fun _ b => b, fun _ b => b⟩

theorem idA_good (key : Bytes) : GoodAes idA key := by
  intro b hlen hlt
  exact ⟨hlen, hlt, rfl⟩

/-! ### Arithmetic facts about the bit operations of the codecs -/

theorem shiftLeft_lor_eq_add (a b k : Nat) (hb : b < 2 ^ k) :
    (a <<< k) ||| b = 2 ^ k * a + b := by
  apply Nat.eq_of_testBit_eq
  intro j
  rw [Nat.testBit_or, Nat.testBit_shiftLeft, Nat.testBit_mul_pow_two_add a hb j]
  by_cases h : j < k
  · have hk : ¬ k ≤ j := by omega
    simp [h, hk]
  · have hk : k ≤ j := by omega
    have hbj : b < 2 ^ j := lt_of_lt_of_le hb (Nat.pow_le_pow_right (by norm_num) hk)
    simp [h, hk, Nat.testBit_lt_two_pow hbj]

theorem and15 (x : Nat) : x &&& 15 = x % 16 := Nat.and_pow_two_sub_one_eq_mod x 4

theorem and31 (x : Nat) : x &&& 31 = x % 32 := Nat.and_pow_two_sub_one_eq_mod x 5

theorem and63 (x : Nat) : x &&& 63 = x % 64 := Nat.and_pow_two_sub_one_eq_mod x 6

theorem decode2_encode (u : Nat) (h1 : 128 ≤ u) (h2 : u < 2048) :
    decode2 (192 + u / 64) (128 + u % 64) = u := by
  unfold decode2
  have e1 : (192 + u / 64) &&& 31 = u / 64 := by rw [and31]; omega
  have e2 : (128 + u % 64) &&& 63 = u % 64 := by rw [and63]; omega
  rw [e1, e2, shiftLeft_lor_eq_add (u / 64) (u % 64) 6 (Nat.mod_lt u (by norm_num))]
  show 64 * (u / 64) + u % 64 = u
  omega

theorem decode3_encode (u : Nat) (h1 : 2048 ≤ u) (h2 : u < 65536) :
    decode3 (224 + u / 4096) (128 + u / 64 % 64) (128 + u % 64) = u := by
  unfold decode3
  have e1 : (224 + u / 4096) &&& 15 = u / 4096 := by rw [and15]; omega
  have e2 : (128 + u / 64 % 64) &&& 63 = u / 64 % 64 := by rw [and63]; omega
  have e3 : (128 + u % 64) &&& 63 = u % 64 := by rw [and63]; omega
  rw [e1, e2, e3]
  have hy : (u / 64 % 64) <<< 6 < 2 ^ 12 := by
    rw [Nat.shiftLeft_eq]
    have : u / 64 % 64 < 64 := Nat.mod_lt _ (by norm_num)
    show u / 64 % 64 * 64 < 4096
    omega
  rw [shiftLeft_lor_eq_add _ _ 12 hy]
  have e4 : 2 ^ 12 * (u / 4096) + (u / 64 % 64) <<< 6
      = (2 ^ 6 * (u / 4096) + u / 64 % 64) <<< 6 := by
    rw [Nat.shiftLeft_eq, Nat.shiftLeft_eq]
    ring
  rw [e4, shiftLeft_lor_eq_add (2 ^ 6 * (u / 4096) + u / 64 % 64) (u % 64) 6
    (Nat.mod_lt u (by norm_num))]
  show 64 * (64 * (u / 4096) + u / 64 % 64) + u % 64 = u
  omega

/-! ### The aes-js UTF-8 codec round-trips on BMP strings -/

theorem utf8EncUnit_lt256 (u : Nat) (hu : ValidUnit u) : ∀ b ∈ utf8EncUnit u, b < 256 := by
  obtain ⟨h1, _⟩ := hu
  unfold utf8EncUnit
  split
  · intro b hb; simp at hb; omega
  · split
    · intro b hb
      simp at hb
      rcases hb with h | h <;> omega
    · intro b hb
      simp at hb
      rcases hb with h | h | h <;> omega

theorem utf8From_encUnit_append (u : Nat) (hu : ValidUnit u) (rest : Bytes) :
    utf8FromBytes (utf8EncUnit u ++ rest) = u :: utf8FromBytes rest := by
  obtain ⟨hBMP, _⟩ := hu
  by_cases h1 : u < 128
  · rw [utf8EncUnit, if_pos h1]
    show utf8FromBytes (u :: rest) = _
    rcases rest with _ | ⟨b, _ | ⟨b2, r⟩⟩ <;> simp [utf8FromBytes, h1]
  · by_cases h2 : u < 2048
    · rw [utf8EncUnit, if_neg h1, if_pos h2]
      show utf8FromBytes ((192 + u / 64) :: (128 + u % 64) :: rest) = _
      have hc1 : ¬ (192 + u / 64 < 128) := by omega
      have hc2 : (decide (191 < 192 + u / 64) && decide (192 + u / 64 < 224)) = true := by
        have hdlo : 2 ≤ u / 64 := by omega
        have hdhi : u / 64 < 32 := by omega
        simp only [Bool.and_eq_true, decide_eq_true_eq]
        omega
      have hdec : decode2 (192 + u / 64) (128 + u % 64) = u := decode2_encode u (by omega) h2
      rcases rest with _ | ⟨b2, r⟩ <;>
        simp [utf8FromBytes, hc1, hc2, hdec]
    · rw [utf8EncUnit, if_neg h1, if_neg h2]
      show utf8FromBytes
        ((224 + u / 4096) :: (128 + u / 64 % 64) :: (128 + u % 64) :: rest) = _
      have hc1 : ¬ (224 + u / 4096 < 128) := by omega
      have hc2 : (decide (191 < 224 + u / 4096) && decide (224 + u / 4096 < 224)) = false := by
        simp only [Bool.and_eq_false_iff, decide_eq_false_iff_not]
        omega
      have hdec : decode3 (224 + u / 4096) (128 + u / 64 % 64) (128 + u % 64) = u :=
        decode3_encode u (by omega) hBMP
      simp [utf8FromBytes, hc1, hc2, hdec]

theorem utf8ToBytes_cons (u : Nat) (s : Str) :
    utf8ToBytes (u :: s) = utf8EncUnit u ++ utf8ToBytes s := by
  simp [utf8ToBytes]

theorem utf8From_toBytes_append (s : Str) (hs : ∀ u ∈ s, ValidUnit u) (rest : Bytes) :
    utf8FromBytes (utf8ToBytes s ++ rest) = s ++ utf8FromBytes rest := by
  induction s with
  | nil => simp [utf8ToBytes]
  | cons u t ih =>
    rw [utf8ToBytes_cons, List.append_assoc,
      utf8From_encUnit_append u (hs u (by simp)) _,
      ih (fun v hv => hs v (by simp [hv]))]
    rfl

theorem utf8From_replicate (k : Nat) (hk : k < 128) :
    ∀ n, utf8FromBytes (List.replicate n k) = List.replicate n k
  | 0 => rfl
  | 1 => by simp [utf8FromBytes, List.replicate, hk]
  | 2 => by simp [utf8FromBytes, List.replicate, hk]
  | n + 3 => by
    have ih : utf8FromBytes (k :: k :: List.replicate n k)
        = k :: k :: List.replicate n k := utf8From_replicate k hk (n + 2)
    show utf8FromBytes (k :: k :: k :: List.replicate n k)
      = k :: k :: k :: List.replicate n k
    rw [show utf8FromBytes (k :: k :: k :: List.replicate n k)
      = k :: utf8FromBytes (k :: k :: List.replicate n k) from by
        simp [utf8FromBytes, hk], ih]

theorem utf8ToBytes_lt256 (s : Str) (hs : ∀ u ∈ s, ValidUnit u) :
    ∀ b ∈ utf8ToBytes s, b < 256 := by
  intro b hb
  unfold utf8ToBytes at hb
  rw [List.mem_flatten] at hb
  obtain ⟨l, hl, hbl⟩ := hb
  rw [List.mem_map] at hl
  obtain ⟨u, hu, rfl⟩ := hl
  exact utf8EncUnit_lt256 u (hs u hu) b hbl

theorem utf8ToBytes_ascii (s : Str) (hs : ∀ u ∈ s, u < 128) : utf8ToBytes s = s := by
  induction s with
  | nil => rfl
  | cons u t ih =>
    rw [utf8ToBytes_cons, utf8EncUnit, if_pos (hs u (by simp)),
      ih (fun v hv => hs v (by simp [hv]))]
    rfl

/-! ### The hex codec round-trips on bytes -/

set_option maxRecDepth 40000 in
theorem hexPair_of_byte : ∀ v < 256,
    hexPairVal (hexDigitCodes.getD ((v &&& 240) >>> 4) 0)
      (some (hexDigitCodes.getD (v &&& 15) 0)) = v := by decide

theorem hexToBytes_append_byte (v : Nat) (hv : v < 256) (rest : Str) :
    hexToBytes (hexFromByte v ++ rest) = v :: hexToBytes rest := by
  show hexToBytes (hexDigitCodes.getD ((v &&& 240) >>> 4) 0 ::
    hexDigitCodes.getD (v &&& 15) 0 :: rest) = _
  simp only [hexToBytes]
  rw [hexPair_of_byte v hv]

theorem hexToBytes_hexFromBytes (bs : Bytes) (h : ∀ b ∈ bs, b < 256) :
    hexToBytes (hexFromBytes bs) = bs := by
  induction bs with
  | nil => rfl
  | cons v t ih =>
    have hv : hexFromBytes (v :: t) = hexFromByte v ++ hexFromBytes t := by
      simp [hexFromBytes]
    rw [hv, hexToBytes_append_byte v (h v (by simp)),
      ih (fun b hb => h b (by simp [hb]))]

/-! ### CBC chaining facts -/

theorem xorBlock_length (a b : Bytes) : (xorBlock a b).length = min a.length b.length := by
  simp [xorBlock]

theorem xorBlock_lt256 : ∀ (a b : Bytes), (∀ x ∈ a, x < 256) → (∀ x ∈ b, x < 256) →
    ∀ x ∈ xorBlock a b, x < 256
  | [], _, _, _ => by simp [xorBlock]
  | _ :: _, [], _, _ => by simp [xorBlock]
  | a :: as, b :: bs, ha, hb => by
    intro x hx
    simp only [xorBlock, List.zipWith_cons_cons] at hx
    rcases List.mem_cons.mp hx with h | h
    · subst h
      exact @Nat.xor_lt_two_pow a b 8 (ha a (by simp)) (hb b (by simp))
    · exact xorBlock_lt256 as bs (fun y hy => ha y (by simp [hy]))
        (fun y hy => hb y (by simp [hy])) x h

theorem xorBlock_cancel : ∀ (a b : Bytes), a.length = b.length →
    xorBlock (xorBlock a b) b = a
  | [], [], _ => rfl
  | a :: as, b :: bs, h => by
    simp only [xorBlock, List.zipWith_cons_cons]
    rw [Nat.xor_cancel_right]
    have ih := xorBlock_cancel as bs (by simpa using h)
    simp only [xorBlock] at ih
    rw [ih]
  | [], _ :: _, h => by simp at h
  | _ :: _, [], h => by simp at h

theorem cbcEncBlocks_props (A : AesAlg) (key : Bytes) (hA : GoodAes A key) :
    ∀ (blocks : List Bytes) (prev : Bytes), prev.length = 16 → (∀ x ∈ prev, x < 256) →
      (∀ b ∈ blocks, b.length = 16 ∧ ∀ x ∈ b, x < 256) →
      ∀ c ∈ cbcEncBlocks A key prev blocks, c.length = 16 ∧ ∀ x ∈ c, x < 256
  | [], prev, _, _, _ => by simp [cbcEncBlocks]
  | b :: rest, prev, hp1, hp2, hb => by
    obtain ⟨hb1, hb2⟩ := hb b (by simp)
    have hx1 : (xorBlock b prev).length = 16 := by
      simp [xorBlock_length, hb1, hp1]
    have hx2 : ∀ x ∈ xorBlock b prev, x < 256 := xorBlock_lt256 b prev hb2 hp2
    obtain ⟨he1, he2, _⟩ := hA (xorBlock b prev) hx1 hx2
    intro c hc
    simp only [cbcEncBlocks] at hc
    rcases List.mem_cons.mp hc with h | h
    · subst h; exact ⟨he1, he2⟩
    · exact cbcEncBlocks_props A key hA rest (A.encB key (xorBlock b prev)) he1 he2
        (fun x hx => hb x (by simp [hx])) c h

theorem cbcDec_cbcEnc (A : AesAlg) (key : Bytes) (hA : GoodAes A key) :
    ∀ (blocks : List Bytes) (prev : Bytes), prev.length = 16 → (∀ x ∈ prev, x < 256) →
      (∀ b ∈ blocks, b.length = 16 ∧ ∀ x ∈ b, x < 256) →
      cbcDecBlocks A key prev (cbcEncBlocks A key prev blocks) = blocks
  | [], prev, _, _, _ => rfl
  | b :: rest, prev, hp1, hp2, hb => by
    obtain ⟨hb1, hb2⟩ := hb b (by simp)
    have hx1 : (xorBlock b prev).length = 16 := by
      simp [xorBlock_length, hb1, hp1]
    have hx2 : ∀ x ∈ xorBlock b prev, x < 256 := xorBlock_lt256 b prev hb2 hp2
    obtain ⟨he1, he2, he3⟩ := hA (xorBlock b prev) hx1 hx2
    simp only [cbcEncBlocks, cbcDecBlocks]
    rw [he3, xorBlock_cancel b prev (by rw [hb1, hp1])]
    rw [cbcDec_cbcEnc A key hA rest (A.encB key (xorBlock b prev)) he1 he2
      (fun x hx => hb x (by simp [hx]))]

/-! ### Chunking facts -/

theorem chunkAux_flatten_of_blocks :
    ∀ (bs : List Bytes) (fuel : Nat), (∀ b ∈ bs, b.length = 16) →
      bs.flatten.length ≤ fuel → chunkAux fuel bs.flatten = bs
  | [], fuel, _, _ => by cases fuel <;> simp [chunkAux]
  | b :: tl, fuel, hb, hf => by
    have hb16 : b.length = 16 := hb b (by simp)
    have hlen : (List.flatten (b :: tl)).length = 16 + (List.flatten tl).length := by
      simp [hb16]
    cases fuel with
    | zero => omega
    | succ f =>
      have hne : b ++ tl.flatten ≠ [] := by
        intro h
        have hb0 : b = [] := (List.append_eq_nil.mp h).1
        rw [hb0] at hb16
        simp at hb16
      show chunkAux (f + 1) (List.flatten (b :: tl)) = b :: tl
      rw [List.flatten_cons, chunkAux, if_neg hne,
        List.take_left' hb16, List.drop_left' hb16,
        chunkAux_flatten_of_blocks tl f (fun x hx => hb x (by simp [hx])) (by
          simp only [List.flatten_cons, List.length_append, hb16] at hf
          omega)]

theorem chunk16_flatten_blocks (bs : List Bytes) (hb : ∀ b ∈ bs, b.length = 16) :
    chunk16 bs.flatten = bs :=
  chunkAux_flatten_of_blocks bs _ hb (le_refl _)

theorem chunkAux_props : ∀ (fuel : Nat) (l : Bytes), l.length ≤ fuel → l.length % 16 = 0 →
    (chunkAux fuel l).flatten = l ∧ ∀ c ∈ chunkAux fuel l, c.length = 16
  | 0, l, hf, _ => by
    have hl : l = [] := List.length_eq_zero.mp (by omega)
    subst hl
    simp [chunkAux]
  | fuel + 1, l, hf, hm => by
    by_cases hl : l = []
    · subst hl; simp [chunkAux]
    · have h0 : l.length ≠ 0 := fun h => hl (List.length_eq_zero.mp h)
      have hlen : 16 ≤ l.length := by omega
      rw [chunkAux, if_neg hl]
      have hdl : (l.drop 16).length = l.length - 16 := by simp
      have ih := chunkAux_props fuel (l.drop 16) (by omega) (by omega)
      constructor
      · rw [List.flatten_cons, ih.1, List.take_append_drop]
      · intro c hc
        rcases List.mem_cons.mp hc with h | h
        · subst h; rw [List.length_take]; omega
        · exact ih.2 c h

theorem chunk16_props (l : Bytes) (hm : l.length % 16 = 0) :
    (chunk16 l).flatten = l ∧ ∀ c ∈ chunk16 l, c.length = 16 :=
  chunkAux_props l.length l (le_refl _) hm

theorem flatten_length_16 (bs : List Bytes) (hb : ∀ b ∈ bs, b.length = 16) :
    bs.flatten.length % 16 = 0 := by
  induction bs with
  | nil => rfl
  | cons b tl ih =>
    rw [List.flatten_cons, List.length_append, hb b (by simp)]
    have := ih (fun x hx => hb x (by simp [hx]))
    omega

/-! ### Padding facts -/

theorem pkcs7pad_eq (bs : Bytes) :
    pkcs7pad bs = bs ++ List.replicate (16 - bs.length % 16) (16 - bs.length % 16) := rfl

theorem pkcs7pad_mod (bs : Bytes) : (pkcs7pad bs).length % 16 = 0 := by
  simp only [pkcs7pad, List.length_append, List.length_replicate]
  omega

theorem pkcs5Strip_append_replicate (P : Str) (k : Nat) (hk1 : 1 ≤ k) (hk16 : k ≤ 16)
    (hlen : 32 ≤ P.length + k) :
    pkcs5Strip (P ++ List.replicate k k) = Except.ok P := by
  have hL : (P ++ List.replicate k k).length = P.length + k := by simp
  have hlast : ∀ j, 1 ≤ j → (P ++ List.replicate j j).getLastD 0 = j := by
    rintro (_ | m) hj
    · omega
    · rw [List.replicate_succ', ← List.append_assoc, List.getLastD_concat]
  simp only [pkcs5Strip]
  rw [if_neg (by rw [hL]; omega), hlast k hk1, if_neg (by omega), hL]
  rw [show P.length + k - k = P.length from by omega, List.take_left]

/-! ### The envelope round trip -/

theorem envelope_roundTrip (A : AesAlg) (key iv : Bytes) (hA : GoodAes A key)
    (hiv1 : iv.length = 16) (hiv2 : ∀ x ∈ iv, x < 256)
    (P : Str) (hP : ∀ u ∈ P, ValidUnit u)
    (hlen : 32 ≤ P.length + (16 - (utf8ToBytes P).length % 16)) :
    decryptAes A ⟨key, iv⟩ (encryptAes A ⟨key, iv⟩ P) = Except.ok P := by
  have hk1 : 1 ≤ 16 - (utf8ToBytes P).length % 16 := by omega
  have hk16 : 16 - (utf8ToBytes P).length % 16 ≤ 16 := by omega
  have hbs256 : ∀ b ∈ utf8ToBytes P, b < 256 := utf8ToBytes_lt256 P hP
  have hpad256 : ∀ b ∈ pkcs7pad (utf8ToBytes P), b < 256 := by
    rw [pkcs7pad_eq]
    intro b hb
    rcases List.mem_append.mp hb with h | h
    · exact hbs256 b h
    · have := List.eq_of_mem_replicate h
      omega
  obtain ⟨hflat, hlens⟩ := chunk16_props (pkcs7pad (utf8ToBytes P)) (pkcs7pad_mod _)
  have hperblock : ∀ b ∈ chunk16 (pkcs7pad (utf8ToBytes P)),
      b.length = 16 ∧ ∀ x ∈ b, x < 256 := by
    intro b hb
    refine ⟨hlens b hb, fun x hx => hpad256 x ?_⟩
    rw [← hflat]
    exact List.mem_flatten_of_mem hb hx
  have hencprops := cbcEncBlocks_props A key hA
    (chunk16 (pkcs7pad (utf8ToBytes P))) iv hiv1 hiv2 hperblock
  show decryptAes A ⟨key, iv⟩
    (hexFromBytes ((cbcEncBlocks A key iv (chunk16 (pkcs7pad (utf8ToBytes P)))).flatten))
    = Except.ok P
  have heb256 : ∀ x ∈ (cbcEncBlocks A key iv (chunk16 (pkcs7pad (utf8ToBytes P)))).flatten,
      x < 256 := by
    intro x hx
    rw [List.mem_flatten] at hx
    obtain ⟨c, hc, hxc⟩ := hx
    exact (hencprops c hc).2 x hxc
  have heblen : (cbcEncBlocks A key iv (chunk16 (pkcs7pad (utf8ToBytes P)))).flatten.length
      % 16 = 0 := flatten_length_16 _ (fun c hc => (hencprops c hc).1)
  simp only [decryptAes]
  rw [hexToBytes_hexFromBytes _ heb256, if_pos heblen,
    chunk16_flatten_blocks _ (fun c hc => (hencprops c hc).1),
    cbcDec_cbcEnc A key hA (chunk16 (pkcs7pad (utf8ToBytes P))) iv hiv1 hiv2 hperblock,
    hflat, pkcs7pad_eq,
    utf8From_toBytes_append P hP,
    utf8From_replicate (16 - (utf8ToBytes P).length % 16) (by omega)]
  exact pkcs5Strip_append_replicate P (16 - (utf8ToBytes P).length % 16) hk1 hk16 hlen

/-! ### The payment orchestrator: the /hesabe/create-indirect-payment route -/

/-- JS truthiness of an optional string field: absent, or present and
empty, is falsy. -/
def truthyO : Option Str → Bool
  | none => false
  | some s => !s.isEmpty

/-- The ECMAScript whitespace code units recognised by `String.prototype.trim`. -/
def isJsWhite (c : Nat) : Bool :=
  c = 9 || c = 10 || c = 11 || c = 12 || c = 13 || c = 32 || c = 160 ||
    c = 5760 || (8192 ≤ c && c ≤ 8202) || c = 8232 || c = 8233 || c = 8239 ||
    c = 8287 || c = 12288 || c = 65279

/-- `String.prototype.trim`. -/
def jsTrim (s : Str) : Str :=
  ((s.dropWhile isJsWhite).reverse.dropWhile isJsWhite).reverse

/-- The client payload after JSON parsing, restricted to the fields the
route destructures (src/index.js lines 153-172); `none` models an absent
field. -/
structure Payload where
  amount : Option Str := none
  currency : Option Str := none
  orderReferenceNumber : Option Str := none
  responseUrl : Option Str := none
  failureUrl : Option Str := none
  name : Option Str := none
  mobile_number : Option Str := none
  email : Option Str := none
  callbackUrl : Option Str := none
  webhookUrl : Option Str := none
  variable1 : Option Str := none
  variable2 : Option Str := none
  variable3 : Option Str := none
  variable4 : Option Str := none
  variable5 : Option Str := none
  deriving DecidableEq

/-- Negation of `!amount || !currency || !orderReferenceNumber ||
!responseUrl || !failureUrl` (src/index.js line 174). -/
def requiredOk (p : Payload) : Bool :=
  truthyO p.amount && truthyO p.currency && truthyO p.orderReferenceNumber &&
    truthyO p.responseUrl && truthyO p.failureUrl

/-- `callbackUrl && callbackUrl.trim().length > 0 ? callbackUrl :
incomingWebhookUrl` (src/index.js lines 184-187). -/
def resolveWebhook (callbackUrl incomingWebhookUrl : Option Str) : Option Str :=
  if truthyO callbackUrl && decide (0 < (jsTrim (callbackUrl.getD [])).length)
  then callbackUrl else incomingWebhookUrl

/-- The canonical request payload built for the processor (src/index.js
lines 190-211). -/
structure RequestPayload where
  merchantCode : Str
  amount : Option Str
  paymentType : Nat
  currency : Option Str
  responseUrl : Option Str
  failureUrl : Option Str
  version : Str
  orderReferenceNumber : Option Str
  name : Option Str
  mobile_number : Option Str
  email : Option Str
  webhookUrl : Option Str
  variable1 : Option Str
  variable2 : Option Str
  variable3 : Option Str
  variable4 : Option Str
  variable5 : Option Str
  deriving DecidableEq

/-- The decrypted processor response as far as the route inspects it:
`status` is the truthiness of the status field; `message` and the nested
`response.data` / `response.token` are optional strings. -/
structure HesabeInner where
  data : Option Str := none
  token : Option Str := none
  deriving DecidableEq

structure HesabeResp where
  status : Bool := false
  message : Option Str := none
  response : Option HesabeInner := none
  deriving DecidableEq

/-- `decryptedJson?.response?.data || decryptedJson?.response?.token || null`
(src/index.js lines 244-247): the first truthy operand wins. -/
def tokenOf (j : HesabeResp) : Option Str :=
  if truthyO (j.response.bind HesabeInner.data) then j.response.bind HesabeInner.data
  else if truthyO (j.response.bind HesabeInner.token) then j.response.bind HesabeInner.token
  else none

/-- `decryptedJson.message || "Hesabe checkout failed"`-style defaulting:
the left operand is used iff it is truthy. -/
def jsOrStr (o : Option Str) (d : Str) : Str :=
  if truthyO o then o.getD [] else d

/-- An axios-style error: optionally carries the upstream response with
its HTTP status and, when it was a string, its body. -/
structure RespInfo where
  status : Nat
  data : Option Str := none
  deriving DecidableEq

structure AxiosErr where
  response : Option RespInfo := none
  deriving DecidableEq

/-- What one outbound `axios.post` can do: resolve with a text body, or
throw. -/
inductive TransportResult where
  | ok (body : Str)
  | err (e : AxiosErr)
  deriving DecidableEq

/-- What the `try` block can throw: the axios error of the outbound call,
or a plain `Error` (from `decryptAes` or `JSON.parse`) with no `response`
field. -/
inductive ThrownErr where
  | axios (e : AxiosErr)
  | plain
  deriving DecidableEq

/-- Externally observable crypto/network effects of the route. -/
inductive Effect where
  | enc
  | post
  deriving DecidableEq

/-- The JSON body and HTTP status the route replies with, restricted to
the fields it ever sets. -/
structure ApiResponse where
  status : Nat
  success : Bool
  message : Option Str := none
  received : Option Payload := none
  paymentUrl : Option Str := none
  hesabeRaw : Option HesabeResp := none
  hesabeResponse : Option HesabeResp := none
  hesabeError : Option Str := none
  deriving DecidableEq

/-- Process-wide configuration and collaborators: the abstract block
cipher, the `HesabeCrypt` instance, configuration strings, and the JS
built-ins `JSON.stringify` / `JSON.parse`, kept abstract. -/
structure Config where
  aes : AesAlg
  crypt : HesabeCrypt
  merchantCode : Str
  paymentBase : Str
  stringify : RequestPayload → Str
  parse : Str → Option HesabeResp

def missingFieldsMsg : Str :=
  uStr "Missing required fields: amount, currency, orderReferenceNumber, responseUrl, failureUrl"

def checkoutFailedMsg : Str := uStr "Hesabe checkout failed"

def tokenMissingMsg : Str := uStr "Could not find payment token in Hesabe response"

def hesabeErrMsg : Str := uStr "Hesabe error"

def buildPayload (cfg : Config) (p : Payload) : RequestPayload :=
  { merchantCode := cfg.merchantCode
    amount := p.amount
    paymentType := 0
    currency := p.currency
    responseUrl := p.responseUrl
    failureUrl := p.failureUrl
    version := uStr "2.0"
    orderReferenceNumber := p.orderReferenceNumber
    name := p.name
    mobile_number := p.mobile_number
    email := p.email
    webhookUrl := resolveWebhook p.callbackUrl p.webhookUrl
    variable1 := p.variable1
    variable2 := p.variable2
    variable3 := p.variable3
    variable4 := p.variable4
    variable5 := p.variable5 }

/-- The encrypted body the route sends out:
`hesabeCrypt.encryptAes(JSON.stringify(requestPayload))`. -/
def requestData (cfg : Config) (p : Payload) : Str :=
  encryptAes cfg.aes cfg.crypt (cfg.stringify (buildPayload cfg p))

def validationFailResp (p : Payload) : ApiResponse :=
  { status := 400, success := false, message := some missingFieldsMsg,
    received := some p }

def statusFailResp (j : HesabeResp) : ApiResponse :=
  { status := 400, success := false,
    message := some (jsOrStr j.message checkoutFailedMsg), hesabeRaw := some j }

def tokenMissingResp (j : HesabeResp) : ApiResponse :=
  { status := 500, success := false, message := some tokenMissingMsg,
    hesabeRaw := some j }

def successResp (cfg : Config) (t : Str) (j : HesabeResp) : ApiResponse :=
  { status := 200, success := true,
    paymentUrl := some (cfg.paymentBase ++ uStr "?data=" ++ t),
    hesabeResponse := some j }

/-- `err.response?.status || 500` (src/index.js line 288). -/
def catchStatus : ThrownErr → Nat
  | ThrownErr.axios a =>
    match a.response with
    | some r => if r.status = 0 then 500 else r.status
    | none => 500
  | ThrownErr.plain => 500

/-- The `catch` block (src/index.js lines 266-294): opportunistically
decrypt a string error body, falling back to the raw body when that
decryption itself throws. -/
def catchResp (cfg : Config) (e : ThrownErr) : ApiResponse :=
  let hesabeError : Option Str :=
    match e with
    | ThrownErr.axios a =>
      match a.response with
      | some r =>
        match r.data with
        | some s =>
          match decryptAes cfg.aes cfg.crypt s with
          | Except.ok d => some d
          | Except.error _ => some s
        | none => none
      | none => none
    | ThrownErr.plain => none
  { status := catchStatus e, success := false, message := some hesabeErrMsg,
    hesabeError := hesabeError }

/-- The `try` block of the route (src/index.js lines 135-265): `res.json`
replies are `Except.ok`; thrown exceptions are `Except.error`. -/
def tryPipeline (cfg : Config) (net : Str → TransportResult) (p : Payload) :
    Except ThrownErr ApiResponse :=
  if requiredOk p = false then Except.ok (validationFailResp p)
  else
    match net (requestData cfg p) with
    | TransportResult.err a => Except.error (ThrownErr.axios a)
    | TransportResult.ok rawData =>
      match decryptAes cfg.aes cfg.crypt rawData with
      | Except.error _ => Except.error ThrownErr.plain
      | Except.ok decryptedStr =>
        match cfg.parse decryptedStr with
        | none => Except.error ThrownErr.plain
        | some j =>
          if j.status = false then Except.ok (statusFailResp j)
          else
            match tokenOf j with
            | none => Except.ok (tokenMissingResp j)
            | some t => Except.ok (successResp cfg t j)

/-- Crypto/network effects the route performs: none when validation
rejects, otherwise one encryption followed by one outbound call. -/
def effectsOf (p : Payload) : List Effect :=
  if requiredOk p = false then [] else [Effect.enc, Effect.post]

/-- The whole route: the `try` block and its `catch`. -/
def handler (cfg : Config) (net : Str → TransportResult) (p : Payload) :
    ApiResponse × List Effect :=
  (match tryPipeline cfg net p with
    | Except.ok r => r
    | Except.error e => catchResp cfg e,
    effectsOf p)

/-- `encryptAes` and `decryptAes` with the instance state threaded
explicitly: both methods read `this.key` / `this.iv`, build a fresh local
CBC object, and never assign to `this`, so the instance is returned
unchanged. -/
def encryptAesSt (A : AesAlg) (c : HesabeCrypt) (p : Str) : Str × HesabeCrypt :=
  (encryptAes A c p, c)

def decryptAesSt (A : AesAlg) (c : HesabeCrypt) (h : Str) :
    Except PadErr Str × HesabeCrypt :=
  (decryptAes A c h, c)

/-! ### Concrete fixtures used to evaluate the model on explicit inputs -/

def secW : Str := uStr "aaaaaaaaaaaaaaaaaaaaaaaaaaaaaaaa"

def ivW : Str := uStr "bbbbbbbbbbbbbbbb"

def cryptW : HesabeCrypt := HesabeCrypt.ofStrings secW ivW

def plain32 : Str := uStr "cccccccccccccccccccccccccccccccc"

def okBody : Str := encryptAes idA cryptW plain32

def netOk : Str → TransportResult := fun _ => TransportResult.ok okBody

def payloadW : Payload :=
  { amount := some (uStr "10.000"), currency := some (uStr "KWD"),
    orderReferenceNumber := some (uStr "BOOKING-1"),
    responseUrl := some (uStr "https://x/ok"),
    failureUrl := some (uStr "https://x/fail") }

def cfgBase : Config :=
  { aes := idA, crypt := cryptW, merchantCode := uStr "m",
    paymentBase := uStr "https://sandbox.hesabe.com/payment",
    stringify := fun _ => [], parse := fun _ => none }

def dShort : Str := uStr "too short"

def dBig : Str := uStr "aaaaaaaaaaaaaaaaaaaaaaaaaaaaaaaaaaaaaaaa"

def dOk : Str := uStr "aaaaaaaaaaaaaaaaaaaaaaaaaaaaaaa" ++ [2]

/-! ### The claims -/

/-- C1 counterexample: with the identity block cipher, a 32-character key
and a 16-character IV, sealing the empty plaintext and opening it does not
return the empty plaintext: `pkcs5Strip` rejects the 16-character decrypted
text (`length < 32`), so `decryptAes (encryptAes "") ` throws instead of
returning `""`. -/
theorem C1_counterexample :
    secW.length = 32 ∧ ivW.length = 16 ∧
    decryptAes idA cryptW (encryptAes idA cryptW []) = Except.error PadErr.blockLen ∧
    ¬ decryptAes idA cryptW (encryptAes idA cryptW []) = Except.ok [] := by decide

/-- C1 (amended): for every block cipher satisfying the AES block-cipher
contract, every 32-character secret key, every 16-character ASCII IV, and
every BMP plaintext P whose decrypted text (P plus its padding characters)
is at least 32 characters long, opening the sealed envelope returns P:
`decryptAes (encryptAes P) = ok P`.  (The claim as stated fails for short
plaintexts, e.g. the empty string: see the counterexample.) -/
theorem C1_roundTrip (A : AesAlg) (secret ivs P : Str)
    (hA : GoodAes A (utf8ToBytes secret))
    (hsec : secret.length = 32)
    (hivLen : ivs.length = 16) (hivAscii : ∀ u ∈ ivs, u < 128)
    (hP : ∀ u ∈ P, ValidUnit u)
    (hlen : 32 ≤ P.length + (16 - (utf8ToBytes P).length % 16)) :
    decryptAes A (HesabeCrypt.ofStrings secret ivs)
      (encryptAes A (HesabeCrypt.ofStrings secret ivs) P) = Except.ok P := by
  have hiv : utf8ToBytes ivs = ivs := utf8ToBytes_ascii ivs hivAscii
  have h1 : (utf8ToBytes ivs).length = 16 := by rw [hiv, hivLen]
  have h2 : ∀ x ∈ utf8ToBytes ivs, x < 256 := by
    rw [hiv]
    intro x hx
    exact lt_of_lt_of_le (hivAscii x hx) (by norm_num)
  exact envelope_roundTrip A (utf8ToBytes secret) (utf8ToBytes ivs) hA h1 h2 P hP hlen

/-- C1 witness: the amended round trip evaluated at a concrete 32-character
plaintext with the identity block cipher. -/
theorem C1_roundTrip_witness :
    decryptAes idA cryptW (encryptAes idA cryptW plain32) = Except.ok plain32 :=
  C1_roundTrip idA secW ivW plain32 (idA_good _) (by decide) (by decide) (by decide)
    (by decide) (by decide)

/-- C2: `pkcs5Strip` fails for every text shorter than 32 characters, fails
for every text whose final character code exceeds 32, and for texts of
length at least 32 with final character code at most 32 it succeeds,
truncating exactly that many characters off the end. -/
theorem C2_paddingBoundary (d : Str) :
    (d.length < 32 → pkcs5Strip d = Except.error PadErr.blockLen) ∧
    (32 < d.getLastD 0 → ∃ e, pkcs5Strip d = Except.error e) ∧
    (32 ≤ d.length → d.getLastD 0 ≤ 32 →
      pkcs5Strip d = Except.ok (d.take (d.length - d.getLastD 0)) ∧
      (d.take (d.length - d.getLastD 0)).length = d.length - d.getLastD 0) := by
  refine ⟨?_, ?_, ?_⟩
  · intro h
    simp only [pkcs5Strip]
    rw [if_pos h]
  · intro h
    by_cases hl : d.length < 32
    · exact ⟨PadErr.blockLen, by simp only [pkcs5Strip]; rw [if_pos hl]⟩
    · exact ⟨PadErr.padRange, by simp only [pkcs5Strip]; rw [if_neg hl, if_pos h]⟩
  · intro h1 h2
    constructor
    · simp only [pkcs5Strip]
      rw [if_neg (by omega), if_neg (by omega)]
    · rw [List.length_take]
      omega

/-- C2 witness: a 9-character text is rejected, a 40-character text ending
in a letter (code 97 > 32) is rejected, and a 32-character text ending in
the character of code 2 has its last 2 characters stripped. -/
theorem C2_paddingBoundary_witness :
    pkcs5Strip dShort = Except.error PadErr.blockLen ∧
    (∃ e, pkcs5Strip dBig = Except.error e) ∧
    pkcs5Strip dOk = Except.ok (dOk.take (dOk.length - dOk.getLastD 0)) :=
  ⟨(C2_paddingBoundary dShort).1 (by decide),
   (C2_paddingBoundary dBig).2.1 (by decide),
   ((C2_paddingBoundary dOk).2.2 (by decide) (by decide)).1⟩

/-- C10: whenever `pkcs5Strip` succeeds, its result is a prefix of its
input whose length is exactly the input length minus the final character
code (so the subtraction cannot underflow), and every character of the
result occurs in the input. -/
theorem C10_stripSafety (d r : Str) (h : pkcs5Strip d = Except.ok r) :
    r.length + d.getLastD 0 = d.length ∧
    r ++ d.drop r.length = d ∧
    ∀ x ∈ r, x ∈ d := by
  simp only [pkcs5Strip] at h
  by_cases h1 : d.length < 32
  · rw [if_pos h1] at h
    exact absurd h (by simp)
  · rw [if_neg h1] at h
    by_cases h2 : d.getLastD 0 > 32
    · rw [if_pos h2] at h
      exact absurd h (by simp)
    · rw [if_neg h2] at h
      have hr : r = d.take (d.length - d.getLastD 0) := by
        have := h
        simp only [Except.ok.injEq] at this
        exact this.symm
      have hlen : r.length = d.length - d.getLastD 0 := by
        rw [hr, List.length_take]
        omega
      refine ⟨by omega, ?_, ?_⟩
      · rw [hlen, hr]
        exact List.take_append_drop _ d
      · intro x hx
        rw [hr] at hx
        exact List.take_subset _ d hx

/-- C10 witness: the concrete 32-character text ending in code 2 is
stripped to its first 30 characters, a prefix. -/
theorem C10_stripSafety_witness :
    (dOk.take 30).length + dOk.getLastD 0 = dOk.length ∧
    dOk.take 30 ++ dOk.drop (dOk.take 30).length = dOk := by
  have h := C10_stripSafety dOk (dOk.take 30) (by decide)
  exact ⟨h.1, h.2.1⟩

/-- C3: when any of the five required fields is absent or falsy, the route
replies with the missing-required-fields message and `success:false`, and
performs no encryption and no network call. -/
theorem C3_validation (cfg : Config) (net : Str → TransportResult) (p : Payload)
    (h : truthyO p.amount = false ∨ truthyO p.currency = false ∨
      truthyO p.orderReferenceNumber = false ∨ truthyO p.responseUrl = false ∨
      truthyO p.failureUrl = false) :
    handler cfg net p = (validationFailResp p, []) ∧
    (handler cfg net p).1.success = false ∧
    (handler cfg net p).1.message = some missingFieldsMsg := by
  have hreq : requiredOk p = false := by
    unfold requiredOk
    rcases h with h | h | h | h | h <;> simp [h]
  have heq : handler cfg net p = (validationFailResp p, []) := by
    simp [handler, tryPipeline, effectsOf, hreq]
  refine ⟨heq, ?_, ?_⟩ <;> rw [heq] <;> rfl

/-- C3 witness: a payload carrying only a currency is rejected with the
missing-required-fields message and an empty effect trace. -/
theorem C3_validation_witness :
    handler cfgBase netOk { currency := some (uStr "KWD") }
      = (validationFailResp { currency := some (uStr "KWD") }, []) ∧
    (handler cfgBase netOk { currency := some (uStr "KWD") }).1.success = false ∧
    (handler cfgBase netOk { currency := some (uStr "KWD") }).1.message
      = some missingFieldsMsg :=
  C3_validation cfgBase netOk { currency := some (uStr "KWD") } (Or.inl rfl)

/-- C4: the route never lets an exception escape: every thrown error is
converted into a `success:false` reply whose status is the upstream HTTP
status when available and 500 otherwise; `success:true` occurs only as the
genuine success reply; and the missing-token reply is a `success:false`
generic-server-error (500) reply. -/
theorem C4_noEscape (cfg : Config) (net : Str → TransportResult) (p : Payload) :
    (∀ e, tryPipeline cfg net p = Except.error e →
      (handler cfg net p).1.success = false ∧
      (handler cfg net p).1.status = catchStatus e) ∧
    ((handler cfg net p).1.success = true →
      ∃ t j, (handler cfg net p).1 = successResp cfg t j) ∧
    (∀ j : HesabeResp, (tokenMissingResp j).success = false ∧
      (tokenMissingResp j).status = 500) := by
  refine ⟨?_, ?_, fun j => ⟨rfl, rfl⟩⟩
  · intro e he
    have hh : (handler cfg net p).1 = catchResp cfg e := by
      unfold handler
      rw [he]
    rw [hh]
    exact ⟨rfl, rfl⟩
  · intro hs
    cases htry : tryPipeline cfg net p with
    | error e =>
      have hh : (handler cfg net p).1 = catchResp cfg e := by
        unfold handler
        rw [htry]
      rw [hh] at hs
      simp [catchResp] at hs
    | ok r =>
      have hh : (handler cfg net p).1 = r := by
        unfold handler
        rw [htry]
      unfold tryPipeline at htry
      by_cases hreq : requiredOk p = false
      · rw [if_pos hreq] at htry
        simp only [Except.ok.injEq] at htry
        rw [hh, ← htry] at hs
        simp [validationFailResp] at hs
      · rw [if_neg hreq] at htry
        cases hnet : net (requestData cfg p) with
        | err a => simp [hnet] at htry
        | ok rawData =>
          simp only [hnet] at htry
          cases hdec : decryptAes cfg.aes cfg.crypt rawData with
          | error e2 => simp [hdec] at htry
          | ok ds =>
            simp only [hdec] at htry
            cases hparse : cfg.parse ds with
            | none => simp [hparse] at htry
            | some j =>
              simp only [hparse] at htry
              by_cases hst : j.status = false
              · rw [if_pos hst] at htry
                simp only [Except.ok.injEq] at htry
                rw [hh, ← htry] at hs
                simp [statusFailResp] at hs
              · rw [if_neg hst] at htry
                cases htok : tokenOf j with
                | none =>
                  rw [htok] at htry
                  simp only [Except.ok.injEq] at htry
                  rw [hh, ← htry] at hs
                  simp [tokenMissingResp] at hs
                | some t =>
                  rw [htok] at htry
                  simp only [Except.ok.injEq] at htry
                  exact ⟨t, j, by rw [hh, ← htry]⟩

/-- C4 witness: a transport failure with upstream status 503 produces a
`success:false` reply with status 503. -/
theorem C4_noEscape_witness :
    (handler cfgBase (fun _ => TransportResult.err { response := some { status := 503 } })
      payloadW).1.success = false ∧
    (handler cfgBase (fun _ => TransportResult.err { response := some { status := 503 } })
      payloadW).1.status
      = catchStatus (ThrownErr.axios { response := some { status := 503 } }) :=
  (C4_noEscape cfgBase (fun _ => TransportResult.err { response := some { status := 503 } })
    payloadW).1 (ThrownErr.axios { response := some { status := 503 } }) (by decide)

/-- C5: with a truthy-status decrypted response, the token is `response.data`
when that is present and truthy (the paymentUrl embeds it), falling back to
`response.token`; when neither yields a token the reply is `success:false`
with the token-missing message carrying the full decrypted body. -/
theorem C5_tokenPrecedence (cfg : Config) (net : Str → TransportResult) (p : Payload)
    (raw ds : Str) (j : HesabeResp)
    (hv : requiredOk p = true)
    (hnet : net (requestData cfg p) = TransportResult.ok raw)
    (hdec : decryptAes cfg.aes cfg.crypt raw = Except.ok ds)
    (hparse : cfg.parse ds = some j)
    (hst : j.status = true) :
    (∀ i d, j.response = some i → i.data = some d → d ≠ [] →
      (handler cfg net p).1 = successResp cfg d j ∧
      (handler cfg net p).1.paymentUrl
        = some (cfg.paymentBase ++ uStr "?data=" ++ d)) ∧
    (∀ i t, j.response = some i → truthyO i.data = false → i.token = some t → t ≠ [] →
      (handler cfg net p).1 = successResp cfg t j ∧
      (handler cfg net p).1.paymentUrl
        = some (cfg.paymentBase ++ uStr "?data=" ++ t)) ∧
    (tokenOf j = none →
      (handler cfg net p).1.success = false ∧
      (handler cfg net p).1.message = some tokenMissingMsg ∧
      (handler cfg net p).1.hesabeRaw = some j) := by
  have hpipe : tryPipeline cfg net p
      = (match tokenOf j with
        | none => Except.ok (tokenMissingResp j)
        | some t => Except.ok (successResp cfg t j)) := by
    unfold tryPipeline
    rw [if_neg (by simp [hv])]
    simp only [hnet, hdec, hparse]
    rw [if_neg (by simp [hst])]
  refine ⟨?_, ?_, ?_⟩
  · intro i d hres hdata hne
    have htok : tokenOf j = some d := by
      unfold tokenOf
      rw [hres]
      simp [hdata, truthyO, hne]
    have hh : (handler cfg net p).1 = successResp cfg d j := by
      unfold handler
      rw [hpipe, htok]
    exact ⟨hh, by rw [hh]; rfl⟩
  · intro i t hres hdf htok0 hne
    have htok : tokenOf j = some t := by
      unfold tokenOf
      rw [hres]
      simp only [Option.some_bind]
      rw [hdf]
      simp [htok0, truthyO, hne]
    have hh : (handler cfg net p).1 = successResp cfg t j := by
      unfold handler
      rw [hpipe, htok]
    exact ⟨hh, by rw [hh]; rfl⟩
  · intro hnone
    have hh : (handler cfg net p).1 = tokenMissingResp j := by
      unfold handler
      rw [hpipe, hnone]
    rw [hh]
    exact ⟨rfl, rfl, rfl⟩

def inner5 : HesabeInner := { data := some (uStr "T1"), token := some (uStr "T2") }

def j5 : HesabeResp := { status := true, response := some inner5 }

def cfg5 : Config := { cfgBase with parse := fun _ => some j5 }

/-- C5 witness: with `response = (data := "T1", token := "T2")` the
paymentUrl embeds `"T1"`. -/
theorem C5_tokenPrecedence_witness :
    (handler cfg5 netOk payloadW).1 = successResp cfg5 (uStr "T1") j5 ∧
    (handler cfg5 netOk payloadW).1.paymentUrl
      = some (cfg5.paymentBase ++ uStr "?data=" ++ uStr "T1") :=
  (C5_tokenPrecedence cfg5 netOk payloadW okBody plain32 j5 (by decide) rfl
    (by decide) rfl rfl).1 inner5 (uStr "T1") rfl rfl (by decide)

def pCb : Payload :=
  { callbackUrl := some (uStr "https://a"), webhookUrl := some (uStr "https://b") }

def pWh : Payload := { webhookUrl := some (uStr "https://b") }

def pAlias : Payload :=
  { callbackUrl := some (uStr " "), webhookUrl := some (uStr "https://b") }

/-- C6 counterexample: a whitespace-only `callbackUrl` (" ") is non-empty,
yet the canonical payload's webhookUrl is the supplied webhookUrl, not the
callbackUrl, because the code tests `callbackUrl.trim().length > 0`. -/
theorem C6_counterexample :
    pAlias.callbackUrl = some (uStr " ") ∧ uStr " " ≠ [] ∧
    (buildPayload cfgBase pAlias).webhookUrl = some (uStr "https://b") ∧
    (buildPayload cfgBase pAlias).webhookUrl ≠ some (uStr " ") := by decide

/-- C6 (amended): the canonical payload's webhookUrl equals `callbackUrl`
whenever `callbackUrl` is supplied and its trim is non-empty; when
`callbackUrl` is absent, or supplied but trim-empty (e.g. whitespace-only),
it equals the supplied `webhookUrl`. -/
theorem C6_aliasResolution (cfg : Config) (p : Payload) :
    (∀ cb, p.callbackUrl = some cb → jsTrim cb ≠ [] →
      (buildPayload cfg p).webhookUrl = some cb) ∧
    (p.callbackUrl = none → (buildPayload cfg p).webhookUrl = p.webhookUrl) ∧
    (∀ cb, p.callbackUrl = some cb → jsTrim cb = [] →
      (buildPayload cfg p).webhookUrl = p.webhookUrl) := by
  refine ⟨?_, ?_, ?_⟩
  · intro cb hcb htr
    show resolveWebhook p.callbackUrl p.webhookUrl = some cb
    rw [hcb]
    unfold resolveWebhook
    rw [if_pos ?_]
    simp only [Bool.and_eq_true, decide_eq_true_eq]
    constructor
    · have hne : cb ≠ [] := fun hc => htr (by rw [hc]; rfl)
      simp [truthyO, hne]
    · simp only [Option.getD_some]
      exact List.length_pos.mpr htr
  · intro hcb
    show resolveWebhook p.callbackUrl p.webhookUrl = p.webhookUrl
    rw [hcb]
    rfl
  · intro cb hcb htr
    show resolveWebhook p.callbackUrl p.webhookUrl = p.webhookUrl
    rw [hcb]
    unfold resolveWebhook
    rw [if_neg ?_]
    simp only [Bool.and_eq_true, decide_eq_true_eq, Option.getD_some, htr]
    simp

/-- C6 witness: with both urls supplied the canonical webhookUrl is
`"https://a"`; with only webhookUrl supplied it is that url. -/
theorem C6_aliasResolution_witness :
    (buildPayload cfgBase pCb).webhookUrl = some (uStr "https://a") ∧
    (buildPayload cfgBase pWh).webhookUrl = pWh.webhookUrl :=
  ⟨(C6_aliasResolution cfgBase pCb).1 (uStr "https://a") rfl (by decide),
   (C6_aliasResolution cfgBase pWh).2.1 rfl⟩

def jEmptyMsg : HesabeResp := { status := false, message := some [] }

def cfg7 : Config := { cfgBase with parse := fun _ => some jEmptyMsg }

/-- C7 counterexample: a failed response whose message field is present but
empty is surfaced with the generic checkout-failed message, not with the
(empty) response message, because the code uses `||` (truthiness), not an
absence test. -/
theorem C7_counterexample :
    jEmptyMsg.message = some [] ∧
    (handler cfg7 netOk payloadW).1.message = some checkoutFailedMsg ∧
    (handler cfg7 netOk payloadW).1.message ≠ some ([] : Str) := by decide

/-- C7 (amended): with a falsy-status decrypted response, the route replies
`success:false` (status 400) carrying the full decrypted body, and the
message is the response's message field when that is truthy (non-empty),
defaulting to the generic checkout-failed message when it is absent or
empty. -/
theorem C7_failureSurfacing (cfg : Config) (net : Str → TransportResult) (p : Payload)
    (raw ds : Str) (j : HesabeResp)
    (hv : requiredOk p = true)
    (hnet : net (requestData cfg p) = TransportResult.ok raw)
    (hdec : decryptAes cfg.aes cfg.crypt raw = Except.ok ds)
    (hparse : cfg.parse ds = some j)
    (hst : j.status = false) :
    (handler cfg net p).1 = statusFailResp j ∧
    (handler cfg net p).1.success = false ∧
    (handler cfg net p).1.status = 400 ∧
    (handler cfg net p).1.message = some (jsOrStr j.message checkoutFailedMsg) ∧
    (handler cfg net p).1.hesabeRaw = some j ∧
    (∀ m, j.message = some m → m ≠ [] → jsOrStr j.message checkoutFailedMsg = m) ∧
    (j.message = none → jsOrStr j.message checkoutFailedMsg = checkoutFailedMsg) ∧
    (j.message = some [] → jsOrStr j.message checkoutFailedMsg = checkoutFailedMsg) := by
  have hh : (handler cfg net p).1 = statusFailResp j := by
    unfold handler tryPipeline
    rw [if_neg (by simp [hv])]
    simp only [hnet, hdec, hparse]
    rw [if_pos hst]
  refine ⟨hh, by rw [hh]; rfl, by rw [hh]; rfl, by rw [hh]; rfl, by rw [hh]; rfl,
    ?_, ?_, ?_⟩
  · intro m hm hne
    unfold jsOrStr
    rw [hm]
    simp [truthyO, hne]
  · intro hm
    rw [hm]
    rfl
  · intro hm
    rw [hm]
    rfl

def jDeclined : HesabeResp := { status := false, message := some (uStr "declined") }

def cfgDecl : Config := { cfgBase with parse := fun _ => some jDeclined }

/-- C7 witness: a failed response with message `"declined"` is surfaced
with exactly that message. -/
theorem C7_failureSurfacing_witness :
    (handler cfgDecl netOk payloadW).1.success = false ∧
    (handler cfgDecl netOk payloadW).1.message = some (uStr "declined") := by
  have h := C7_failureSurfacing cfgDecl netOk payloadW okBody plain32 jDeclined
    (by decide) rfl (by decide) rfl rfl
  refine ⟨h.2.1, ?_⟩
  rw [h.2.2.2.1]
  decide

/-- C8: for every transport failure whose response body is a string, the
catch block surfaces the decrypted body when `decryptAes` succeeds on it,
and swallows the decryption failure and surfaces the raw body otherwise;
the reply is `success:false` either way. -/
theorem C8_errorBody (cfg : Config) (net : Str → TransportResult) (p : Payload)
    (a : AxiosErr) (r : RespInfo) (s : Str)
    (hv : requiredOk p = true)
    (hnet : net (requestData cfg p) = TransportResult.err a)
    (hresp : a.response = some r)
    (hdata : r.data = some s) :
    (handler cfg net p).1.success = false ∧
    (handler cfg net p).1.hesabeError
      = some (match decryptAes cfg.aes cfg.crypt s with
        | Except.ok d => d
        | Except.error _ => s) ∧
    (∀ d, decryptAes cfg.aes cfg.crypt s = Except.ok d →
      (handler cfg net p).1.hesabeError = some d) ∧
    (∀ e2, decryptAes cfg.aes cfg.crypt s = Except.error e2 →
      (handler cfg net p).1.hesabeError = some s) := by
  have hpipe : tryPipeline cfg net p = Except.error (ThrownErr.axios a) := by
    unfold tryPipeline
    rw [if_neg (by simp [hv])]
    simp only [hnet]
  have hh : (handler cfg net p).1 = catchResp cfg (ThrownErr.axios a) := by
    unfold handler
    rw [hpipe]
  refine ⟨by rw [hh]; rfl, ?_, ?_, ?_⟩
  · rw [hh]
    cases hdd : decryptAes cfg.aes cfg.crypt s with
    | ok d => simp [catchResp, hresp, hdata, hdd]
    | error e2 => simp [catchResp, hresp, hdata, hdd]
  · intro d hd
    rw [hh]
    simp [catchResp, hresp, hdata, hd]
  · intro e2 he
    rw [hh]
    simp [catchResp, hresp, hdata, he]

def errPlain : Str := uStr "\x7b\"message\":\"bad access code\"\x7d"

def errCipher : Str := encryptAes idA cryptW errPlain

def aErrBody : AxiosErr := { response := some { status := 400, data := some errCipher } }

/-- C8 witness: a transport failure whose body is the valid hex ciphertext
of the JSON text with message "bad access code" surfaces the decrypted
text, which differs from the raw hex. -/
theorem C8_errorBody_witness :
    (handler cfgBase (fun _ => TransportResult.err aErrBody) payloadW).1.hesabeError
      = some errPlain ∧
    errPlain ≠ errCipher := by
  have h := C8_errorBody cfgBase (fun _ => TransportResult.err aErrBody) payloadW
    aErrBody { status := 400, data := some errCipher } errCipher (by decide) rfl rfl rfl
  exact ⟨h.2.2.1 errPlain (by decide), by decide⟩

/-- C9: `encryptAes` is deterministic and mutation-free at the instance
level: the instance state after a call is unchanged, a second invocation of
`encryptAes` on the same instance returns the identical hex ciphertext,
and `decryptAes` leaves the stored key and IV unchanged too. -/
theorem C9_deterministic (A : AesAlg) (c : HesabeCrypt) (p q : Str) :
    (encryptAesSt A c p).2 = c ∧
    (encryptAesSt A (encryptAesSt A c p).2 p).1 = (encryptAesSt A c p).1 ∧
    (decryptAesSt A c q).2 = c :=
  ⟨rfl, rfl, rfl⟩

end Hesabe
